import Mathlib

/-!
Verification development for the piazza forum service (Django REST app).

The embedding below translates the domain logic of `api/models.py`,
`api/serializers.py` and `api/views.py` into Lean:

* timestamps are integers (`Time := Int`), durations are `Int`
  (Django `DateTimeField` / `DurationField`);
* the database is a record of append-only lists of posts, ratings and
  comments; primary keys are assigned sequentially, as an autoincrement
  column does;
* each serializer `validate`/`create` pair becomes a function returning
  `Except ApiError (DB × row)`; DRF field-level validation (`max_length`,
  `allow_blank`, choice membership, relational pk lookup) runs before the
  serializer-level `validate`, and the checks inside `validate` raise in
  source order;
* `timezone.now()` is the explicit argument `now` of each operation.
-/

abbrev Time := Int
abbrev UserId := Nat
abbrev PostId := Nat

/-- `Rating.Rate` from `api/models.py`: the two valid rating values,
with `LIKE` the model default. -/
inductive Rate where
  | LIKE
  | DISLIKE
deriving DecidableEq, Repr

/-- `Topic.TYPES` from `api/models.py`: the four valid topic primary keys. -/
def TopicCatalog : List String := ["politics", "health", "sport", "tech"]

/-- The `Post` model from `api/models.py`.  `date_created` is
`auto_now_add` (stamped with the creation-time clock value). -/
structure Post where
  id : PostId
  title : String
  message : String
  topics : List String
  owner : UserId
  date_created : Time
  expiry_date : Time
deriving DecidableEq, Repr

/-- The `Rating` model from `api/models.py`. -/
structure Rating where
  id : Nat
  user : UserId
  post : PostId
  rating : Rate
  time_left_until_post_expiry : Int
deriving DecidableEq, Repr

/-- The `Comment` model from `api/models.py`. -/
structure Comment where
  id : Nat
  user : UserId
  post : PostId
  comment : String
  time_left_until_post_expiry : Int
deriving DecidableEq, Repr

/-- The persistent store: the three tables, append-only (the app exposes
no update or delete on these models). -/
structure DB where
  posts : List Post
  ratings : List Rating
  comments : List Comment
deriving DecidableEq, Repr

def DB.init : DB := ⟨[], [], []⟩

/-- The distinguishing reasons of the `ValidationError`s raised in
`api/serializers.py`, plus the `DoesNotExist` of `Post.objects.get`. -/
inductive ApiError where
  | notFound
  | selfRating
  | ratingExpired
  | alreadyRated
  | commentBlank
  | commentTooLong
  | commentExpired
  | titleInvalid
  | messageInvalid
  | invalidTopic
  | pastExpiry
deriving DecidableEq, Repr

/-- `Post.objects.get(pk=...)`: look a post up by primary key. -/
def getPost (db : DB) (pk : PostId) : Option Post :=
  db.posts.find? (fun p => p.id == pk)

/-- `post.rating_set.filter(user=user).count()` used as a truth value in
`RatingSerializer.validate`. -/
def hasRated (db : DB) (pk : PostId) (user : UserId) : Bool :=
  db.ratings.any (fun r => r.post == pk && r.user == user)

/-- `RatingSerializer` (`api/serializers.py`): `validate` checks, in
source order, that the requester is not the post's owner, that the post
is not expired (`post.expiry_date < timezone.now()` raises), and that
the requester has not already rated the post; `create` then persists a
`Rating` whose `time_left_until_post_expiry` is
`post.expiry_date - timezone.now()`.  The `rating` field is optional in
the request (the model declares `default=Rate.LIKE`), hence
`value : Option Rate`. -/
def addRating (db : DB) (pk : PostId) (user : UserId) (value : Option Rate)
    (now : Time) : Except ApiError (DB × Rating) :=
  match getPost db pk with
  | none => .error .notFound
  | some post =>
    if user == post.owner then .error .selfRating
    else if post.expiry_date < now then .error .ratingExpired
    else if hasRated db pk user then .error .alreadyRated
    else
      let r : Rating :=
        { id := db.ratings.length
          user := user
          post := pk
          rating := value.getD Rate.LIKE
          time_left_until_post_expiry := post.expiry_date - now }
      .ok ({ db with ratings := db.ratings ++ [r] }, r)

/-- `CommentSerializer` (`api/serializers.py`): DRF first validates the
`comment` char field (`max_length=256`, blank not allowed), then
`validate` checks that the post is not expired
(`post.expiry_date < timezone.now()` raises), and `create` persists a
`Comment` with `time_left_until_post_expiry = post.expiry_date - now`. -/
def addComment (db : DB) (pk : PostId) (user : UserId) (text : String)
    (now : Time) : Except ApiError (DB × Comment) :=
  if text.length == 0 then .error .commentBlank
  else if 256 < text.length then .error .commentTooLong
  else
    match getPost db pk with
    | none => .error .notFound
    | some post =>
      if post.expiry_date < now then .error .commentExpired
      else
        let c : Comment :=
          { id := db.comments.length
            user := user
            post := pk
            comment := text
            time_left_until_post_expiry := post.expiry_date - now }
        .ok ({ db with comments := db.comments ++ [c] }, c)

/-- `PostSerializer` (`api/serializers.py`): DRF field validation checks
`title` (`max_length=150`, blank not allowed), `message`
(`max_length=1000`, blank not allowed) and that every entry of `topics`
is an existing `Topic` primary key (the catalog of four); the field
validator `validate_expiry_date` raises when `value < timezone.now()`.
An empty `topics` list passes (the many-to-many field is sent, and DRF
does not forbid the empty list).  `create` then stores the post with the
requesting user as owner, `date_created` stamped `auto_now_add`, and
adds each given topic. -/
def createPost (db : DB) (title message : String) (topics : List String)
    (owner : UserId) (expiry_date : Time) (now : Time) :
    Except ApiError (DB × Post) :=
  if title.length == 0 || 150 < title.length then .error .titleInvalid
  else if message.length == 0 || 1000 < message.length then .error .messageInvalid
  else if !(topics.all (fun t => TopicCatalog.contains t)) then .error .invalidTopic
  else if expiry_date < now then .error .pastExpiry
  else
    let p : Post :=
      { id := db.posts.length
        title := title
        message := message
        topics := topics
        owner := owner
        date_created := now
        expiry_date := expiry_date }
    .ok ({ db with posts := db.posts ++ [p] }, p)

/-- `PostSerializer.get_status` (`api/serializers.py`): `"Expired"` when
`obj.expiry_date < timezone.now()`, `"Live"` otherwise. -/
def get_status (p : Post) (now : Time) : String :=
  if p.expiry_date < now then "Expired" else "Live"

/-- The `status` query-param branch of `PostViewSet.get_queryset`
(`api/views.py`): `status=expired` keeps posts with
`expiry_date__lt=now`, `status=live` keeps posts with
`expiry_date__gte=now`, anything else leaves the queryset alone. -/
def filterStatus (posts : List Post) (status : Option String) (now : Time) :
    List Post :=
  match status with
  | some s =>
    if s == "expired" then posts.filter (fun p => p.expiry_date < now)
    else if s == "live" then posts.filter (fun p => now ≤ p.expiry_date)
    else posts
  | none => posts

/-- One externally driven write operation against the store, with its
explicit clock value. -/
inductive Op where
  | createPost (title message : String) (topics : List String)
      (owner : UserId) (expiry_date : Time) (now : Time)
  | addRating (pk : PostId) (user : UserId) (value : Option Rate) (now : Time)
  | addComment (pk : PostId) (user : UserId) (text : String) (now : Time)

/-- Apply one operation: a rejected request leaves the store unchanged
(the serializer raises before anything is saved). -/
def applyOp (db : DB) : Op → DB
  | .createPost t m tp o e n =>
    match createPost db t m tp o e n with
    | .ok (db', _) => db'
    | .error _ => db
  | .addRating pk u v n =>
    match addRating db pk u v n with
    | .ok (db', _) => db'
    | .error _ => db
  | .addComment pk u tx n =>
    match addComment db pk u tx n with
    | .ok (db', _) => db'
    | .error _ => db

/-- Run a sequence of operations from a starting state. -/
def runOps (db : DB) (ops : List Op) : DB := ops.foldl applyOp db

/-! ### Spec-side ordered validation (for the refinement claim C5) -/

/-- First failing check of an ordered list of (condition, reason) pairs. -/
def firstFailing : List (Bool × ApiError) → Option ApiError
  | [] => none
  | (b, e) :: rest => if b then some e else firstFailing rest

/-- Modelled from the spec (§4.3): `addRating`'s validation as an
explicit ordered list of checks — post existence, then self-rating, then
expiry, then duplicate rating — where the first failing check determines
the reported error. -/
def specRatingError (db : DB) (pk : PostId) (u : UserId) (now : Time) :
    Option ApiError :=
  match getPost db pk with
  | none => some .notFound
  | some post =>
    firstFailing
      [ (u == post.owner, .selfRating),
        (decide (post.expiry_date < now), .ratingExpired),
        (hasRated db pk u, .alreadyRated) ]

/-! ### Concrete stores for witnesses and counterexamples -/

/-- A post owned by user 0, created at time 0, expiring at time 10. -/
def postA : Post :=
  { id := 0, title := "t", message := "m", topics := ["tech"],
    owner := 0, date_created := 0, expiry_date := 10 }

/-- A store holding just `postA`. -/
def dbOnePost : DB := { posts := [postA], ratings := [], comments := [] }

/-- An (unreachable) store in which the owner of `postA` already has a
rating on record for it; used to exercise check precedence. -/
def dbSelfRated : DB :=
  { posts := [postA]
    ratings := [{ id := 0, user := 0, post := 0, rating := Rate.LIKE,
                  time_left_until_post_expiry := 10 }]
    comments := [] }

/-- 257 characters, one over the `max_length=256` cap. -/
def longText : String := String.mk (List.replicate 257 'a')

/-- The operation sequence: user 0 creates a post expiring at time 10;
user 1 rates it at time 5. -/
def opsW : List Op :=
  [Op.createPost "t" "m" ["tech"] 0 10 0, Op.addRating 0 1 none 5]

/-! ### Well-formedness of reachable states -/

/-- Primary keys of persisted posts are exactly their row positions, in
insertion order (autoincrement pk on an append-only table). -/
def postIdsOk (db : DB) : Prop :=
  db.posts.map Post.id = List.range db.posts.length

lemma mem_post_id_lt {db : DB} (h : postIdsOk db) {p : Post}
    (hp : p ∈ db.posts) : p.id < db.posts.length := by
  have : p.id ∈ db.posts.map Post.id := List.mem_map_of_mem Post.id hp
  rw [h] at this
  exact List.mem_range.mp this

lemma post_id_inj {db : DB} (h : postIdsOk db) {p q : Post}
    (hp : p ∈ db.posts) (hq : q ∈ db.posts) (hid : p.id = q.id) : p = q := by
  have hnd : (db.posts.map Post.id).Nodup := by
    rw [h]; exact List.nodup_range _
  exact List.inj_on_of_nodup_map hnd hp hq hid

lemma getPost_eq_some {db : DB} {pk : PostId} {p : Post}
    (h : getPost db pk = some p) : p ∈ db.posts ∧ p.id = pk := by
  refine ⟨List.mem_of_find?_eq_some h, ?_⟩
  have := List.find?_some h
  simpa using this

lemma getPost_exists {db : DB} (h : postIdsOk db) {pk : PostId}
    (hlt : pk < db.posts.length) : ∃ p, getPost db pk = some p := by
  have hmem : pk ∈ db.posts.map Post.id := by
    rw [h]; exact List.mem_range.mpr hlt
  obtain ⟨p, hp, hid⟩ := List.mem_map.mp hmem
  have : (db.posts.find? (fun q => q.id == pk)).isSome := by
    rw [List.find?_isSome]
    exact ⟨p, hp, by simpa using hid⟩
  obtain ⟨q, hq⟩ := Option.isSome_iff_exists.mp this
  exact ⟨q, hq⟩

/-! ### Characterizations of successful operations -/

lemma addRating_ok_cases {db : DB} {pk : PostId} {u : UserId}
    {v : Option Rate} {now : Time} {db' : DB} {r : Rating}
    (h : addRating db pk u v now = .ok (db', r)) :
    ∃ post, getPost db pk = some post ∧ u ≠ post.owner ∧
      ¬ post.expiry_date < now ∧ hasRated db pk u = false ∧
      r = { id := db.ratings.length, user := u, post := pk,
            rating := v.getD Rate.LIKE,
            time_left_until_post_expiry := post.expiry_date - now } ∧
      db' = { db with ratings := db.ratings ++ [r] } := by
  unfold addRating at h
  split at h
  · exact absurd h (by simp)
  rename_i post hg
  split at h
  · exact absurd h (by simp)
  rename_i h1
  split at h
  · exact absurd h (by simp)
  rename_i h2
  split at h
  · exact absurd h (by simp)
  rename_i h3
  simp only [Except.ok.injEq, Prod.mk.injEq] at h
  refine ⟨post, hg, by simpa using h1, h2, by simpa using h3,
    h.2.symm, ?_⟩
  rw [← h.1, h.2]

lemma addRating_error_state {db : DB} {pk : PostId} {u : UserId}
    {v : Option Rate} {now : Time} {e : ApiError}
    (h : addRating db pk u v now = .error e) :
    applyOp db (.addRating pk u v now) = db := by
  simp [applyOp, h]

lemma addComment_ok_cases {db : DB} {pk : PostId} {u : UserId}
    {text : String} {now : Time} {db' : DB} {c : Comment}
    (h : addComment db pk u text now = .ok (db', c)) :
    ∃ post, getPost db pk = some post ∧ ¬ post.expiry_date < now ∧
      c = { id := db.comments.length, user := u, post := pk, comment := text,
            time_left_until_post_expiry := post.expiry_date - now } ∧
      db' = { db with comments := db.comments ++ [c] } := by
  unfold addComment at h
  split at h
  · exact absurd h (by simp)
  split at h
  · exact absurd h (by simp)
  split at h
  · exact absurd h (by simp)
  rename_i post hg
  split at h
  · exact absurd h (by simp)
  rename_i h2
  simp only [Except.ok.injEq, Prod.mk.injEq] at h
  refine ⟨post, hg, h2, h.2.symm, ?_⟩
  rw [← h.1, h.2]

lemma createPost_ok_cases {db : DB} {title message : String}
    {topics : List String} {owner : UserId} {expiry_date now : Time}
    {db' : DB} {p : Post}
    (h : createPost db title message topics owner expiry_date now
          = .ok (db', p)) :
    ¬ expiry_date < now ∧
      p = { id := db.posts.length, title := title, message := message,
            topics := topics, owner := owner, date_created := now,
            expiry_date := expiry_date } ∧
      db' = { db with posts := db.posts ++ [p] } := by
  unfold createPost at h
  split at h
  · exact absurd h (by simp)
  split at h
  · exact absurd h (by simp)
  split at h
  · exact absurd h (by simp)
  split at h
  · exact absurd h (by simp)
  rename_i h3
  simp only [Except.ok.injEq, Prod.mk.injEq] at h
  refine ⟨h3, h.2.symm, ?_⟩
  rw [← h.1, h.2]

/-! ### Invariants of reachable states -/

/-- All invariants maintained by the operations: sequential primary keys
on posts, referential soundness of ratings, no self-rating on record, and
at most one rating per (post, user) pair. -/
structure StoreInv (db : DB) : Prop where
  ids : postIdsOk db
  ratingsSound : ∀ r ∈ db.ratings, r.post < db.posts.length
  noSelf : ∀ r ∈ db.ratings, ∀ p ∈ db.posts, r.post = p.id → r.user ≠ p.owner
  uniquePair : db.ratings.Pairwise (fun a b => a.post ≠ b.post ∨ a.user ≠ b.user)

lemma storeInv_init : StoreInv DB.init := by
  refine ⟨?_, ?_, ?_, ?_⟩ <;> simp [postIdsOk, DB.init]

lemma storeInv_applyOp {db : DB} (hdb : StoreInv db) (op : Op) : StoreInv (applyOp db op) := by
  cases op with
  | createPost t m tp o e n =>
    simp only [applyOp]
    cases hc : createPost db t m tp o e n with
    | error err => exact hdb
    | ok res =>
      obtain ⟨db', p⟩ := res
      obtain ⟨-, hp, hdb'⟩ := createPost_ok_cases hc
      subst hdb'
      refine ⟨?_, ?_, ?_, hdb.uniquePair⟩
      · show (db.posts ++ [p]).map Post.id = List.range (db.posts ++ [p]).length
        rw [List.map_append, hdb.ids, hp]
        simp [List.range_succ]
      · intro r hr
        have h1 := hdb.ratingsSound r hr
        show r.post < (db.posts ++ [p]).length
        rw [List.length_append]
        exact Nat.lt_add_right _ h1
      · intro r hr q hq hpost
        rcases List.mem_append.mp hq with hq | hq
        · exact hdb.noSelf r hr q hq hpost
        · have hq' : q = p := by simpa using hq
          have hlt : r.post < db.posts.length := hdb.ratingsSound r hr
          rw [hq', hp] at hpost
          have hx : r.post = db.posts.length := hpost
          exact (Nat.lt_irrefl _ (hx ▸ hlt)).elim
  | addRating pk u v n =>
    simp only [applyOp]
    cases hc : addRating db pk u v n with
    | error err => exact hdb
    | ok res =>
      obtain ⟨db', r⟩ := res
      obtain ⟨post, hg, howner, -, hnodup, hr, hdb'⟩ := addRating_ok_cases hc
      obtain ⟨hmem, hid⟩ := getPost_eq_some hg
      subst hdb'
      have hlt : pk < db.posts.length := hid ▸ mem_post_id_lt hdb.ids hmem
      refine ⟨hdb.ids, ?_, ?_, ?_⟩
      · intro r' hr'
        rcases List.mem_append.mp hr' with hr' | hr'
        · exact hdb.ratingsSound r' hr'
        · have : r' = r := by simpa using hr'
          rw [this, hr]
          exact hlt
      · intro r' hr' q hq hpost
        rcases List.mem_append.mp hr' with hr' | hr'
        · exact hdb.noSelf r' hr' q hq hpost
        · have hr'' : r' = r := by simpa using hr'
          rw [hr'', hr] at hpost ⊢
          simp only at hpost ⊢
          have : q = post := post_id_inj hdb.ids hq hmem (by rw [← hpost, hid])
          rw [this]
          exact howner
      · rw [List.pairwise_append]
        refine ⟨hdb.uniquePair, by simp, ?_⟩
        intro a ha b hb
        have hb' : b = r := by simpa using hb
        have h : ∀ x ∈ db.ratings, x.post = pk → ¬ x.user = u := by
          simpa [hasRated] using hnodup
        have hnodup' : ∀ x ∈ db.ratings, ¬(x.post = pk ∧ x.user = u) :=
          fun x hx hcon => h x hx hcon.1 hcon.2
        have := hnodup' a ha
        rw [hb', hr]
        simp only
        tauto
  | addComment pk u tx n =>
    simp only [applyOp]
    cases hc : addComment db pk u tx n with
    | error err => exact hdb
    | ok res =>
      obtain ⟨db', c⟩ := res
      obtain ⟨post, hg, -, hcval, hdb'⟩ := addComment_ok_cases hc
      subst hdb'
      exact ⟨hdb.ids, hdb.ratingsSound, hdb.noSelf, hdb.uniquePair⟩

lemma storeInv_runOps {db : DB} (hdb : StoreInv db) (ops : List Op) :
    StoreInv (runOps db ops) := by
  induction ops generalizing db with
  | nil => exact hdb
  | cons op ops ih => exact ih (storeInv_applyOp hdb op)

lemma storeInv_reachable (ops : List Op) : StoreInv (runOps DB.init ops) :=
  storeInv_runOps storeInv_init ops

/-! ### Frame lemmas: rows are append-only -/

lemma applyOp_ratings_append (db : DB) (op : Op) :
    ∃ l, (applyOp db op).ratings = db.ratings ++ l := by
  cases op with
  | createPost t m tp o e n =>
    simp only [applyOp]
    cases hc : createPost db t m tp o e n with
    | error err => exact ⟨[], by simp⟩
    | ok res =>
      obtain ⟨db', p⟩ := res
      obtain ⟨-, -, hdb'⟩ := createPost_ok_cases hc
      exact ⟨[], by rw [hdb']; simp⟩
  | addRating pk u v n =>
    simp only [applyOp]
    cases hc : addRating db pk u v n with
    | error err => exact ⟨[], by simp⟩
    | ok res =>
      obtain ⟨db', r⟩ := res
      obtain ⟨post, -, -, -, -, -, hdb'⟩ := addRating_ok_cases hc
      exact ⟨[r], by rw [hdb']⟩
  | addComment pk u tx n =>
    simp only [applyOp]
    cases hc : addComment db pk u tx n with
    | error err => exact ⟨[], by simp⟩
    | ok res =>
      obtain ⟨db', c⟩ := res
      obtain ⟨post, -, -, -, hdb'⟩ := addComment_ok_cases hc
      exact ⟨[], by rw [hdb']; simp⟩

lemma applyOp_comments_append (db : DB) (op : Op) :
    ∃ l, (applyOp db op).comments = db.comments ++ l := by
  cases op with
  | createPost t m tp o e n =>
    simp only [applyOp]
    cases hc : createPost db t m tp o e n with
    | error err => exact ⟨[], by simp⟩
    | ok res =>
      obtain ⟨db', p⟩ := res
      obtain ⟨-, -, hdb'⟩ := createPost_ok_cases hc
      exact ⟨[], by rw [hdb']; simp⟩
  | addRating pk u v n =>
    simp only [applyOp]
    cases hc : addRating db pk u v n with
    | error err => exact ⟨[], by simp⟩
    | ok res =>
      obtain ⟨db', r⟩ := res
      obtain ⟨post, -, -, -, -, -, hdb'⟩ := addRating_ok_cases hc
      exact ⟨[], by rw [hdb']; simp⟩
  | addComment pk u tx n =>
    simp only [applyOp]
    cases hc : addComment db pk u tx n with
    | error err => exact ⟨[], by simp⟩
    | ok res =>
      obtain ⟨db', c⟩ := res
      obtain ⟨post, -, -, -, hdb'⟩ := addComment_ok_cases hc
      exact ⟨[c], by rw [hdb']⟩

lemma runOps_ratings_append (db : DB) (ops : List Op) :
    ∃ l, (runOps db ops).ratings = db.ratings ++ l := by
  induction ops generalizing db with
  | nil => exact ⟨[], by simp [runOps]⟩
  | cons op ops ih =>
    obtain ⟨l₁, h₁⟩ := applyOp_ratings_append db op
    obtain ⟨l₂, h₂⟩ := ih (applyOp db op)
    refine ⟨l₁ ++ l₂, ?_⟩
    show (runOps (applyOp db op) ops).ratings = _
    rw [h₂, h₁, List.append_assoc]

lemma runOps_comments_append (db : DB) (ops : List Op) :
    ∃ l, (runOps db ops).comments = db.comments ++ l := by
  induction ops generalizing db with
  | nil => exact ⟨[], by simp [runOps]⟩
  | cons op ops ih =>
    obtain ⟨l₁, h₁⟩ := applyOp_comments_append db op
    obtain ⟨l₂, h₂⟩ := ih (applyOp db op)
    refine ⟨l₁ ++ l₂, ?_⟩
    show (runOps (applyOp db op) ops).comments = _
    rw [h₂, h₁, List.append_assoc]


/-- Claim C5: `addRating` performs its checks in the fixed fail-fast
order — post existence, then self-rating, then expiry, then duplicate
rating — and the first failing check determines the error; in
particular, when the caller owns the post AND the post is expired AND a
prior rating exists, the reported reason is the self-rating one. -/
theorem C5_addRating_check_order :
    (∀ db pk u v now e,
        addRating db pk u v now = Except.error e ↔
          specRatingError db pk u now = some e) ∧
    (∀ db pk u v now,
        (∃ x, addRating db pk u v now = Except.ok x) ↔
          specRatingError db pk u now = none) ∧
    (∀ db pk u v now post, getPost db pk = some post → u = post.owner →
        post.expiry_date < now → hasRated db pk u = true →
        addRating db pk u v now = Except.error ApiError.selfRating) := by
  refine ⟨?_, ?_, ?_⟩
  · intro db pk u v now e
    unfold addRating specRatingError
    cases getPost db pk with
    | none => simp [firstFailing]
    | some post =>
      by_cases h1 : u == post.owner
      · simp [firstFailing, h1]
      · by_cases h2 : post.expiry_date < now
        · simp [firstFailing, h1, h2]
        · by_cases h3 : hasRated db pk u
          · simp [firstFailing, h1, h2, h3]
          · simp [firstFailing, h1, h2, h3]
  · intro db pk u v now
    unfold addRating specRatingError
    cases getPost db pk with
    | none => simp [firstFailing]
    | some post =>
      by_cases h1 : u == post.owner
      · simp [firstFailing, h1]
      · by_cases h2 : post.expiry_date < now
        · simp [firstFailing, h1, h2]
        · by_cases h3 : hasRated db pk u
          · simp [firstFailing, h1, h2, h3]
          · simp [firstFailing, h1, h2, h3]
  · intro db pk u v now post hg ho hexp hdup
    unfold addRating
    rw [hg]
    simp [ho]


theorem C5_addRating_check_order_witness :
    addRating dbSelfRated 0 0 none 20 = Except.error ApiError.selfRating :=
  C5_addRating_check_order.2.2 dbSelfRated 0 0 none 20 postA
    (by decide) (by decide) (by decide) (by decide)

/-- Claim C6 (amended): `get_status` is a pure function of the post and
`now`: the status is `"Live"` iff `now ≤ post.expiry_date` (so at `now`
exactly equal to the expiry timestamp the post is still Live), and the
`status=live` / `status=expired` query filters retain exactly the posts
whose status under `get_status` is `"Live"` / `"Expired"`. -/
theorem C6_status_boundary_and_filter (p : Post) (now : Time)
    (posts : List Post) :
    (get_status p now = "Live" ↔ now ≤ p.expiry_date) ∧
    (get_status p now = "Expired" ↔ p.expiry_date < now) ∧
    filterStatus posts (some "live") now
      = posts.filter (fun q => get_status q now == "Live") ∧
    filterStatus posts (some "expired") now
      = posts.filter (fun q => get_status q now == "Expired") := by
  refine ⟨?_, ?_, ?_, ?_⟩
  · unfold get_status
    by_cases h : p.expiry_date < now
    · rw [if_pos h]
      constructor
      · intro he; exact absurd he (by decide)
      · intro hle; exact absurd h (not_lt.mpr hle)
    · rw [if_neg h]
      exact ⟨fun _ => not_lt.mp h, fun _ => rfl⟩
  · unfold get_status
    by_cases h : p.expiry_date < now
    · rw [if_pos h]
      exact ⟨fun _ => h, fun _ => rfl⟩
    · rw [if_neg h]
      exact ⟨fun he => absurd he (by decide), fun hlt => absurd hlt h⟩
  · have e1 : filterStatus posts (some "live") now
        = posts.filter (fun q => decide (now ≤ q.expiry_date)) := rfl
    rw [e1]
    apply List.filter_congr
    intro q hq
    by_cases h : q.expiry_date < now
    · have h2 : ¬ now ≤ q.expiry_date := not_le.mpr h
      rw [get_status, if_pos h, decide_eq_false h2]
      decide
    · have h2 : now ≤ q.expiry_date := not_lt.mp h
      rw [get_status, if_neg h, decide_eq_true h2]
      decide
  · have e1 : filterStatus posts (some "expired") now
        = posts.filter (fun q => decide (q.expiry_date < now)) := rfl
    rw [e1]
    apply List.filter_congr
    intro q hq
    by_cases h : q.expiry_date < now
    · rw [get_status, if_pos h, decide_eq_true h]
      decide
    · rw [get_status, if_neg h, decide_eq_false h]
      decide

/-- Claim C6, as stated, fails at the expiry instant: a post expiring at
time 5 still has status `"Live"` at `now = 5`, while the claim requires
it to be Expired there (Live iff `now < expiryAt`). -/
theorem C6_counterexample :
    get_status { id := 0, title := "t", message := "m", topics := ["tech"],
                 owner := 0, date_created := 0, expiry_date := 5 } 5 = "Live"
      ∧ ("Live" : String) ≠ "Expired" := by
  exact ⟨rfl, by decide⟩

/-- Claim C1 (amended): for every post and call time `now`, `addRating`
by a non-owner without a prior rating, and `addComment` with valid text
(1–256 characters), fail with the "expired" reason exactly when
`now > post.expiry_date`; when `now ≤ post.expiry_date` they succeed.
In particular the call at `now` exactly equal to the expiry timestamp is
accepted, not rejected. -/
theorem C1_expiry_gate (db : DB) (pk : PostId) (post : Post)
    (uR uC : UserId) (v : Option Rate) (text : String) (now : Time)
    (hg : getPost db pk = some post) (howner : uR ≠ post.owner)
    (hdup : hasRated db pk uR = false)
    (hlen1 : 1 ≤ text.length) (hlen2 : text.length ≤ 256) :
    (post.expiry_date < now →
      addRating db pk uR v now = Except.error ApiError.ratingExpired ∧
      addComment db pk uC text now = Except.error ApiError.commentExpired) ∧
    (now ≤ post.expiry_date →
      (∃ x, addRating db pk uR v now = Except.ok x) ∧
      (∃ y, addComment db pk uC text now = Except.ok y)) := by
  have h0 : (text.length == 0) = false := by
    simp only [beq_eq_false_iff_ne, ne_eq]
    omega
  have h256 : ¬ 256 < text.length := not_lt.mpr hlen2
  constructor
  · intro hexp
    constructor
    · simp [addRating, hg, howner, hexp]
    · simp [addComment, hg, h0, h256, hexp]
  · intro hle
    have hnl : ¬ post.expiry_date < now := not_lt.mpr hle
    constructor
    · simp [addRating, hg, howner, hnl, hdup]
    · simp [addComment, hg, h0, h256, hnl]

theorem C1_expiry_gate_witness :
    (postA.expiry_date < 11 →
      addRating dbOnePost 0 1 none 11 = Except.error ApiError.ratingExpired ∧
      addComment dbOnePost 0 0 "hi" 11 = Except.error ApiError.commentExpired) ∧
    ((11 : Time) ≤ postA.expiry_date →
      (∃ x, addRating dbOnePost 0 1 none 11 = Except.ok x) ∧
      (∃ y, addComment dbOnePost 0 0 "hi" 11 = Except.ok y)) :=
  C1_expiry_gate dbOnePost 0 postA 1 0 none "hi" 11 (by decide) (by decide)
    (by decide) (by decide) (by decide)

/-- Claim C1, as stated, fails at the boundary `now = expiryAt`: on a
post expiring at time 10, a rating by a non-owner and a comment both
succeed at `now = 10`, while the claim requires rejection with reason
"expired" for every `now ≥ expiryAt`. -/
theorem C1_counterexample :
    addRating dbOnePost 0 1 none 10
      = Except.ok ({ posts := [postA],
                     ratings := [{ id := 0, user := 1, post := 0,
                                   rating := Rate.LIKE,
                                   time_left_until_post_expiry := 0 }],
                     comments := [] },
                   { id := 0, user := 1, post := 0, rating := Rate.LIKE,
                     time_left_until_post_expiry := 0 }) ∧
    addComment dbOnePost 0 1 "hi" 10
      = Except.ok ({ posts := [postA], ratings := [],
                     comments := [{ id := 0, user := 1, post := 0,
                                    comment := "hi",
                                    time_left_until_post_expiry := 0 }] },
                   { id := 0, user := 1, post := 0, comment := "hi",
                     time_left_until_post_expiry := 0 }) :=
  ⟨rfl, rfl⟩

/-- Claim C4 (amended): `createPost` fails with a `ValidationError` if
and only if `expiry_date < now` (an expiry equal to the creation time is
accepted), or some topic id is not one of the four catalog topics, or
the title/message is blank or exceeds its length limit (150/1000); an
empty topic list is accepted.  On success it persists the post with
creation time `now`, the given owner, and all given topic
associations. -/
theorem C4_createPost_conditions (db : DB) (title message : String)
    (topics : List String) (owner : UserId) (expiry now : Time) :
    ((∃ x, createPost db title message topics owner expiry now = Except.ok x)
      ↔ (¬ expiry < now ∧
          (topics.all fun t => TopicCatalog.contains t) = true ∧
          1 ≤ title.length ∧ title.length ≤ 150 ∧
          1 ≤ message.length ∧ message.length ≤ 1000)) ∧
    (∀ db' p, createPost db title message topics owner expiry now
        = Except.ok (db', p) →
      p.date_created = now ∧ p.owner = owner ∧ p.topics = topics ∧
      p.expiry_date = expiry ∧ db'.posts = db.posts ++ [p]) := by
  constructor
  · constructor
    · rintro ⟨x, hx⟩
      unfold createPost at hx
      split at hx
      · exact absurd hx (by simp)
      rename_i h0
      split at hx
      · exact absurd hx (by simp)
      rename_i h1
      split at hx
      · exact absurd hx (by simp)
      rename_i h2
      split at hx
      · exact absurd hx (by simp)
      rename_i h3
      have ht : ¬ (title.length = 0 ∨ 150 < title.length) := by
        simpa using h0
      have hm : ¬ (message.length = 0 ∨ 1000 < message.length) := by
        simpa using h1
      have htp : (topics.all fun t => TopicCatalog.contains t) = true := by
        simpa using h2
      refine ⟨h3, htp, ?_, ?_, ?_, ?_⟩ <;> omega
    · rintro ⟨h3, htp, ht1, ht2, hm1, hm2⟩
      have hb0 : (title.length == 0 || 150 < title.length) = false := by
        simp only [Bool.or_eq_false_iff, beq_eq_false_iff_ne, ne_eq,
          decide_eq_false_iff_not, not_lt]
        omega
      have hb1 : (message.length == 0 || 1000 < message.length) = false := by
        simp only [Bool.or_eq_false_iff, beq_eq_false_iff_ne, ne_eq,
          decide_eq_false_iff_not, not_lt]
        omega
      have hmem : ∀ x ∈ topics, x ∈ TopicCatalog := by
        simpa using htp
      have hni : ¬ ∃ x ∈ topics, x ∉ TopicCatalog := by
        rintro ⟨x, hx, hnx⟩
        exact hnx (hmem x hx)
      show ∃ x, createPost db title message topics owner expiry now
        = Except.ok x
      simp [createPost, hb0, hb1, h3, hni]
  · intro db' p hx
    obtain ⟨-, hp, hdb'⟩ := createPost_ok_cases hx
    refine ⟨?_, ?_, ?_, ?_, ?_⟩
    · rw [hp]
    · rw [hp]
    · rw [hp]
    · rw [hp]
    · rw [hdb']

theorem C4_createPost_conditions_witness :
    ((∃ x, createPost DB.init "t" "m" ["tech"] 0 10 0 = Except.ok x)
      ↔ (¬ (10 : Time) < 0 ∧
          ((["tech"] : List String).all fun t => TopicCatalog.contains t)
            = true ∧
          1 ≤ "t".length ∧ "t".length ≤ 150 ∧
          1 ≤ "m".length ∧ "m".length ≤ 1000)) ∧
    (∀ db' p, createPost DB.init "t" "m" ["tech"] 0 10 0
        = Except.ok (db', p) →
      p.date_created = 0 ∧ p.owner = 0 ∧ p.topics = ["tech"] ∧
      p.expiry_date = 10 ∧ db'.posts = DB.init.posts ++ [p]) :=
  C4_createPost_conditions DB.init "t" "m" ["tech"] 0 10 0

/-- Claim C4, as stated, fails on the code: a request whose expiry
equals the creation time (`expiryAt = now = 5`) and whose topic list is
empty is accepted by `createPost`, while the claim requires a
`ValidationError` both for `expiryAt ≤ now` and for empty `topicIds`. -/
theorem C4_counterexample :
    createPost DB.init "t" "m" [] 0 5 5
      = Except.ok ({ posts := [{ id := 0, title := "t", message := "m",
                                 topics := [], owner := 0,
                                 date_created := 5, expiry_date := 5 }],
                     ratings := [], comments := [] },
                   { id := 0, title := "t", message := "m", topics := [],
                     owner := 0, date_created := 5, expiry_date := 5 }) :=
  rfl

/-- Claim C9: `addRating` called without an explicit rating value on a
live post by an eligible user succeeds and records a Rating whose value
is `LIKE`, the model-field default. -/
theorem C9_default_rating_is_like (db : DB) (pk : PostId) (u : UserId)
    (now : Time) (post : Post) (hg : getPost db pk = some post)
    (howner : u ≠ post.owner) (hlive : now ≤ post.expiry_date)
    (hdup : hasRated db pk u = false) :
    ∃ db' r, addRating db pk u none now = Except.ok (db', r) ∧
      r.rating = Rate.LIKE := by
  have hnl : ¬ post.expiry_date < now := not_lt.mpr hlive
  have hok : addRating db pk u none now
      = Except.ok
          ({ db with ratings := db.ratings ++
              [{ id := db.ratings.length, user := u, post := pk,
                 rating := Rate.LIKE,
                 time_left_until_post_expiry := post.expiry_date - now }] },
           { id := db.ratings.length, user := u, post := pk,
             rating := Rate.LIKE,
             time_left_until_post_expiry := post.expiry_date - now }) := by
    simp [addRating, hg, howner, hnl, hdup]
  exact ⟨_, _, hok, rfl⟩

theorem C9_default_rating_is_like_witness :
    ∃ db' r, addRating dbOnePost 0 1 none 5 = Except.ok (db', r) ∧
      r.rating = Rate.LIKE :=
  C9_default_rating_is_like dbOnePost 0 1 5 postA (by decide) (by decide)
    (by decide) (by decide)

/-- Claim C10: `addComment` fails with a `ValidationError` for every
text longer than 256 characters, whatever the post and time, and on
such a failure the store is unchanged. -/
theorem C10_comment_length_cap (db : DB) (pk : PostId) (u : UserId)
    (text : String) (now : Time) (hlen : 256 < text.length) :
    addComment db pk u text now = Except.error ApiError.commentTooLong ∧
    applyOp db (Op.addComment pk u text now) = db := by
  have h0 : (text.length == 0) = false := by
    simp only [beq_eq_false_iff_ne, ne_eq]
    omega
  have he : addComment db pk u text now
      = Except.error ApiError.commentTooLong := by
    simp [addComment, h0, hlen]
  exact ⟨he, by simp [applyOp, he]⟩


set_option maxRecDepth 4000 in
theorem C10_comment_length_cap_witness :
    addComment dbOnePost 0 1 longText 5
        = Except.error ApiError.commentTooLong ∧
    applyOp dbOnePost (Op.addComment 0 1 longText 5) = dbOnePost :=
  C10_comment_length_cap dbOnePost 0 1 longText 5 (by decide)

/-- Claim C7: on every successful `addRating`/`addComment` at time
`now`, the stored `time_left_until_post_expiry` equals
`post.expiry_date - now`, and no subsequent operation changes an
existing Rating or Comment row: the two tables only ever grow by
appending new rows at the end. -/
theorem C7_remaining_frozen :
    (∀ db pk u v now db' r,
        addRating db pk u v now = Except.ok (db', r) →
        ∃ post, getPost db pk = some post ∧
          r.time_left_until_post_expiry = post.expiry_date - now) ∧
    (∀ db pk u text now db' c,
        addComment db pk u text now = Except.ok (db', c) →
        ∃ post, getPost db pk = some post ∧
          c.time_left_until_post_expiry = post.expiry_date - now) ∧
    (∀ db ops, ∃ lr lc,
        (runOps db ops).ratings = db.ratings ++ lr ∧
        (runOps db ops).comments = db.comments ++ lc) := by
  refine ⟨?_, ?_, ?_⟩
  · intro db pk u v now db' r h
    obtain ⟨post, hg, -, -, -, hr, -⟩ := addRating_ok_cases h
    exact ⟨post, hg, by rw [hr]⟩
  · intro db pk u text now db' c h
    obtain ⟨post, hg, -, hc, -⟩ := addComment_ok_cases h
    exact ⟨post, hg, by rw [hc]⟩
  · intro db ops
    obtain ⟨lr, hlr⟩ := runOps_ratings_append db ops
    obtain ⟨lc, hlc⟩ := runOps_comments_append db ops
    exact ⟨lr, lc, hlr, hlc⟩

theorem C7_remaining_frozen_witness :
    ∃ post, getPost dbOnePost 0 = some post ∧
      ({ id := 0, user := 1, post := 0, rating := Rate.LIKE,
         time_left_until_post_expiry := 6 } :
          Rating).time_left_until_post_expiry = post.expiry_date - 4 :=
  C7_remaining_frozen.1 dbOnePost 0 1 none 4
    { posts := [postA],
      ratings := [{ id := 0, user := 1, post := 0, rating := Rate.LIKE,
                    time_left_until_post_expiry := 6 }],
      comments := [] }
    { id := 0, user := 1, post := 0, rating := Rate.LIKE,
      time_left_until_post_expiry := 6 }
    (by rfl)

/-- Claim C8: in every reachable state, no Rating exists whose author
equals the owner of the rated post; moreover every `addRating` call by
the post's owner is rejected with the self-rating reason, whatever the
time and prior history. -/
theorem C8_no_self_rating_ever :
    (∀ ops r p, r ∈ (runOps DB.init ops).ratings →
        p ∈ (runOps DB.init ops).posts → r.post = p.id →
        r.user ≠ p.owner) ∧
    (∀ db pk u v now post, getPost db pk = some post → u = post.owner →
        addRating db pk u v now = Except.error ApiError.selfRating) := by
  constructor
  · intro ops r p hr hp hpost
    exact (storeInv_reachable ops).noSelf r hr p hp hpost
  · intro db pk u v now post hg ho
    simp [addRating, hg, ho]

theorem C8_no_self_rating_ever_witness :
    addRating dbOnePost 0 0 none 5 = Except.error ApiError.selfRating :=
  C8_no_self_rating_ever.2 dbOnePost 0 0 none 5 postA (by decide) (by decide)

lemma countP_pair_le_one (pk : PostId) (u : UserId) :
    ∀ l : List Rating,
      l.Pairwise (fun a b => a.post ≠ b.post ∨ a.user ≠ b.user) →
      l.countP (fun r => r.post == pk && r.user == u) ≤ 1 := by
  intro l h
  induction l with
  | nil => simp
  | cons a l ih =>
    rcases List.pairwise_cons.mp h with ⟨ha, hl⟩
    rw [List.countP_cons]
    by_cases hp : (a.post == pk && a.user == u) = true
    · have h0 : l.countP (fun r => r.post == pk && r.user == u) = 0 := by
        rw [List.countP_eq_zero]
        intro b hb hbp
        have hab := ha b hb
        have hap : a.post = pk ∧ a.user = u := by simpa using hp
        have hbp2 : b.post = pk ∧ b.user = u := by simpa using hbp
        rcases hab with h1 | h2
        · exact h1 (by rw [hap.1, hbp2.1])
        · exact h2 (by rw [hap.2, hbp2.2])
      rw [h0, hp]
      simp
    · have hp2 : (a.post == pk && a.user == u) = false := by
        simpa using hp
      rw [hp2]
      simpa using ih hl

/-- Claim C2 (amended): after any sequence of operations, at most one
Rating exists per (post, user) pair; a second `addRating` by the same
user on the same post is always rejected and adds no Rating — with
reason "already rated" if the post has not yet expired at the call time,
and with reason "expired" if it has (`expiry_date < now`). -/
theorem C2_at_most_one_rating (ops : List Op) (pk : PostId) (u : UserId)
    (v : Option Rate) (now : Time) :
    (runOps DB.init ops).ratings.countP
        (fun r => r.post == pk && r.user == u) ≤ 1 ∧
    (hasRated (runOps DB.init ops) pk u = true →
      ∃ post, getPost (runOps DB.init ops) pk = some post ∧
        addRating (runOps DB.init ops) pk u v now =
          Except.error
            (if post.expiry_date < now then ApiError.ratingExpired
             else ApiError.alreadyRated) ∧
        applyOp (runOps DB.init ops) (Op.addRating pk u v now)
          = runOps DB.init ops) := by
  have hinv := storeInv_reachable ops
  constructor
  · exact countP_pair_le_one pk u _ hinv.uniquePair
  · intro hrated
    obtain ⟨rx, hrx, hrxp⟩ := List.any_eq_true.mp hrated
    have hrx2 : rx.post = pk ∧ rx.user = u := by simpa using hrxp
    have hlt : pk < (runOps DB.init ops).posts.length :=
      hrx2.1 ▸ hinv.ratingsSound rx hrx
    obtain ⟨post, hg⟩ := getPost_exists hinv.ids hlt
    obtain ⟨hmem, hid⟩ := getPost_eq_some hg
    have howner : u ≠ post.owner := by
      have := hinv.noSelf rx hrx post hmem (by rw [hrx2.1, hid])
      rw [hrx2.2] at this
      exact this
    refine ⟨post, hg, ?_⟩
    have herr : addRating (runOps DB.init ops) pk u v now =
        Except.error
          (if post.expiry_date < now then ApiError.ratingExpired
           else ApiError.alreadyRated) := by
      by_cases hexp : post.expiry_date < now
      · rw [if_pos hexp]
        simp [addRating, hg, howner, hexp]
      · rw [if_neg hexp]
        simp [addRating, hg, howner, hexp, hrated]
    exact ⟨herr, by simp [applyOp, herr]⟩


theorem C2_at_most_one_rating_witness :
    ∃ post, getPost (runOps DB.init opsW) 0 = some post ∧
      addRating (runOps DB.init opsW) 0 1 none 20 =
        Except.error
          (if post.expiry_date < 20 then ApiError.ratingExpired
           else ApiError.alreadyRated) ∧
      applyOp (runOps DB.init opsW) (Op.addRating 0 1 none 20)
        = runOps DB.init opsW :=
  (C2_at_most_one_rating opsW 0 1 none 20).2 (by decide)

/-- Claim C2, as stated, is wrong about the rejection reason: after user
1 rates the post at time 5, a second `addRating` by user 1 at time 20 —
past the post's expiry at 10 — is rejected with the "expired" reason,
not "already rated". -/
theorem C2_counterexample :
    addRating (runOps DB.init opsW) 0 1 none 20
        = Except.error ApiError.ratingExpired ∧
      ApiError.ratingExpired ≠ ApiError.alreadyRated := by
  exact ⟨by rfl, by decide⟩
